import Mathlib

/-!
# Verification of orga's state materialization layer

Shallow embedding of two source files of `nomic-io/orga`:

* `macros/src/state.rs` — the `#[derive(State)]` generator. We model (a) the
  generator's accept/reject behaviour on the input AST shape (`struct_fields`,
  `derive`), and (b) the semantics of the code it emits for a compound record:
  per-field `create` against `store.sub(&[i])` with the i-th encoding
  component, and per-field `flush` reassembled into the encoding tuple, both
  in declaration order with `?`-style short-circuiting (`compoundCreate`,
  `compoundFlush`).

* `src/store/share.rs` — `Shared<T>(Rc<RefCell<T>>)`. We model the `RefCell`
  borrow discipline explicitly (`BorrowFlag`, `tryBorrow`, `tryBorrowMut`;
  the flag counts active shared borrows, as `RefCell` does) and the
  `Read`/`Write` impls that delegate to the inner store under a borrow.
  `Rc` sharing is modelled by a world of cells addressed by handle indices;
  `Rc::clone` copies the pointer, so `Shared.clone` is the identity on the
  handle. A `none` result models a `RefCell` borrow panic.

Rust `Result` is modelled by `Except`, panics of the generator
(`todo!`/`panic!`) by `Except.error`, byte strings by `List Nat`.
-/

/-! ## Model of the derive-generator input (syn AST shape) -/

/-- A struct field of the input item: optional identifier (absent for tuple
structs) and the field type, abstracted to its name. -/
structure FieldDecl where
  ident : Option String
  ty : String
deriving DecidableEq

/-- The `syn::Fields` shape of a struct. -/
inductive FieldsKind where
  | named (fields : List FieldDecl)
  | unnamed (fields : List FieldDecl)
  | unit
deriving DecidableEq

/-- The `syn::Data` shape of the derive input. -/
inductive DataKind where
  | structData (fields : FieldsKind)
  | enumData
  | unionData
deriving DecidableEq

/-- The derive input: item name and data shape. -/
structure DeriveInput where
  ident : String
  data : DataKind
deriving DecidableEq

/-- `struct_fields` from `macros/src/state.rs`: returns the field list of a
struct, and fails (the Rust code panics via `todo!` / `panic!`) on enums,
unions and unit structs. -/
def struct_fields (item : DeriveInput) : Except String (List FieldDecl) :=
  match item.data with
  | .structData fk =>
    match fk with
    | .named fields => .ok fields
    | .unnamed fields => .ok fields
    | .unit => .error "Unit structs are not supported"
  | .enumData => .error "not yet implemented: #[derive(State)] does not yet support enums"
  | .unionData => .error "Unions are not supported"

/-- Description of the impl emitted by the generator: whether the item is a
tuple struct, the field types whose `Encoding`s form the tuple `Encoding`
(in declaration order), the per-field `create` calls as
(sub-store path segment, encoding component index) pairs in emission order,
and the order in which fields are flushed. -/
structure GeneratedImpl where
  is_tuple_struct : Bool
  encodingTypes : List String
  createCalls : List (List Nat × Nat)
  flushOrder : List Nat
deriving DecidableEq

/-- `derive` from `macros/src/state.rs`: the `#[derive(State)]` entry point.
Fails exactly when `struct_fields` does; otherwise emits, for each field `i`
in declaration order, a `create` call against `store.sub(&[i])` with encoding
component `data.i`, a `flush` of field `i`, and the `Encoding` tuple of the
field types' `Encoding`s. -/
def derive (item : DeriveInput) : Except String GeneratedImpl :=
  match struct_fields item with
  | .error e => .error e
  | .ok fields =>
    let is_tuple : Bool :=
      match item.data with
      | .structData (.unnamed _) => true
      | _ => false
    let n := fields.length
    .ok
      { is_tuple_struct := is_tuple
        encodingTypes := fields.map (fun f => f.ty)
        createCalls := (List.range n).map (fun i => ([i], i))
        flushOrder := List.range n }

/-! ## Semantics of the generated `create` / `flush` -/

/-- The `State` operations of one field's type: `create` takes a (sub-)store
and the field's encoding, `flush` consumes the field value and returns its
encoding. `Store`, value, encoding and error types are abstract. -/
structure FieldOps (Store V E ε : Type) where
  create : Store → E → Except ε V
  flush : V → Except ε E

/-- The body of the generated `create` for the fields from position `j` on:
for each remaining field, call its `create` with `store.sub(&[i])` (`i` the
declaration position) and its encoding component, short-circuiting on the
first error exactly as the emitted `Self { f_i: State::create(...)?, ... }`
does. -/
def createFields {Store V E ε : Type} (sub : Store → List Nat → Store) (store : Store) :
    Nat → List (FieldOps Store V E ε × E) → Except ε (List V)
  | _, [] => .ok []
  | j, (f, e) :: rest =>
    match f.create (sub store [j]) e with
    | .error err => .error err
    | .ok v =>
      match createFields sub store (j + 1) rest with
      | .error err => .error err
      | .ok vs => .ok (v :: vs)

/-- The generated `create` for a compound record: fields paired positionally
with the components of the encoding tuple (the Rust tuple type guarantees the
arity matches; theorems carry that as a length hypothesis). -/
def compoundCreate {Store V E ε : Type} (sub : Store → List Nat → Store)
    (fields : List (FieldOps Store V E ε)) (store : Store) (data : List E) :
    Except ε (List V) :=
  createFields sub store 0 (fields.zip data)

/-- The body of the generated `flush`: flush each field in declaration order,
short-circuiting on the first error exactly as the emitted
`Ok((self.f_0.flush()?, self.f_1.flush()?, ...))` does. -/
def flushFields {Store V E ε : Type} :
    List (FieldOps Store V E ε × V) → Except ε (List E)
  | [] => .ok []
  | (f, v) :: rest =>
    match f.flush v with
    | .error err => .error err
    | .ok e =>
      match flushFields rest with
      | .error err => .error err
      | .ok es => .ok (e :: es)

/-- The generated `flush` for a compound record: consumes the field values and
reassembles the per-field encodings into the tuple, in declaration order. -/
def compoundFlush {Store V E ε : Type} (fields : List (FieldOps Store V E ε))
    (vals : List V) : Except ε (List E) :=
  flushFields (fields.zip vals)

/-! ## Model of `Shared<T>` (`src/store/share.rs`) -/

/-- The `RefCell` borrow flag: `reading n` records `n` active shared borrows
(`reading 0` is the free state), `writing` an active mutable borrow. -/
inductive BorrowFlag where
  | reading (n : Nat)
  | writing
deriving DecidableEq

/-- `RefCell::borrow`: succeeds (incrementing the shared count) unless a
mutable borrow is active. -/
def tryBorrow : BorrowFlag → Option BorrowFlag
  | .reading n => some (.reading (n + 1))
  | .writing => none

/-- `RefCell::borrow_mut`: succeeds only from the free state. -/
def tryBorrowMut : BorrowFlag → Option BorrowFlag
  | .reading 0 => some .writing
  | .reading (_ + 1) => none
  | .writing => none

/-- The `Read`/`Write` operations of the wrapped store, abstract in the store
state `σ` and error type `ε`. `put`/`delete` take `&mut self` in Rust, so
they return the result together with the updated store state. -/
structure StoreOps (σ ε : Type) where
  get : σ → List Nat → Except ε (Option (List Nat))
  put : σ → List Nat → List Nat → Except ε Unit × σ
  delete : σ → List Nat → Except ε Unit × σ

/-- The heap of `Rc<RefCell<_>>` cells: each cell holds a store state and its
borrow flag. A `Shared` handle is an index into this world. -/
abbrev World (σ : Type) : Type := List (σ × BorrowFlag)

/-- `Shared::new`: allocate a fresh cell in the free borrow state and return
the handle to it. -/
def Shared.new {σ : Type} (w : World σ) (s : σ) : World σ × Nat :=
  (w ++ [(s, .reading 0)], w.length)

/-- `Clone for Shared`: `Rc::clone` copies the pointer, so the clone addresses
the very same cell — the handle is unchanged. -/
def Shared.clone (h : Nat) : Nat := h

/-- `Read for Shared`: `self.0.borrow()` then `store.get(key)`; the borrow is
released when the guard drops at the end of the call. `none` models the
`RefCell` panic when a mutable borrow is active. -/
def Shared.get {σ ε : Type} (ops : StoreOps σ ε) (w : World σ) (h : Nat)
    (key : List Nat) : Option (Except ε (Option (List Nat)) × World σ) :=
  match w[h]? with
  | none => none
  | some (s, flag) =>
    match tryBorrow flag with
    | none => none
    | some _ => some (ops.get s key, w.set h (s, flag))

/-- `Write for Shared` (`put`): `self.0.borrow_mut()` then `store.put`; the
borrow is released on return. `none` models the `RefCell` panic when any
borrow is active. -/
def Shared.put {σ ε : Type} (ops : StoreOps σ ε) (w : World σ) (h : Nat)
    (key value : List Nat) : Option (Except ε Unit × World σ) :=
  match w[h]? with
  | none => none
  | some (s, flag) =>
    match tryBorrowMut flag with
    | none => none
    | some _ =>
      let r := ops.put s key value
      some (r.1, w.set h (r.2, flag))

/-- `Write for Shared` (`delete`): `self.0.borrow_mut()` then `store.delete`;
the borrow is released on return. -/
def Shared.delete {σ ε : Type} (ops : StoreOps σ ε) (w : World σ) (h : Nat)
    (key : List Nat) : Option (Except ε Unit × World σ) :=
  match w[h]? with
  | none => none
  | some (s, flag) =>
    match tryBorrowMut flag with
    | none => none
    | some _ =>
      let r := ops.delete s key
      some (r.1, w.set h (r.2, flag))

/-! ## Concrete instances used to instantiate the abstract parameters -/

/-- A field whose `create` returns the encoding as the value and whose `flush`
returns the value as the encoding (e.g. a plain numeric leaf). -/
def idOps : FieldOps Unit Nat Nat String :=
  { create := fun _ e => .ok e, flush := fun v => .ok v }

/-- A field whose `create` always fails. -/
def failCreateOps : FieldOps Unit Nat Nat String :=
  { create := fun _ _ => .error "boom", flush := fun v => .ok v }

/-- A field whose `flush` always fails. -/
def failFlushOps : FieldOps Unit Nat Nat String :=
  { create := fun _ e => .ok e, flush := fun _ => .error "boom" }

/-- Trivial sub-store operation on the one-point store. -/
def unitSub : Unit → List Nat → Unit := fun _ _ => ()

/-- Exact-key lookup in an in-memory association-list store. -/
def listGet : List (List Nat × List Nat) → List Nat → Option (List Nat)
  | [], _ => none
  | (k, v) :: rest, key => if k = key then some v else listGet rest key

/-- Upsert into an in-memory association-list store. -/
def listPut : List (List Nat × List Nat) → List Nat → List Nat →
    List (List Nat × List Nat)
  | [], key, value => [(key, value)]
  | (k, v) :: rest, key, value =>
    if k = key then (key, value) :: rest else (k, v) :: listPut rest key value

/-- Deletion from an in-memory association-list store. -/
def listDelete : List (List Nat × List Nat) → List Nat →
    List (List Nat × List Nat)
  | [], _ => []
  | (k, v) :: rest, key =>
    if k = key then listDelete rest key else (k, v) :: listDelete rest key

/-- An infallible in-memory store, used to instantiate the abstract inner
store of `Shared`. -/
def listStore : StoreOps (List (List Nat × List Nat)) String :=
  { get := fun s k => .ok (listGet s k)
    put := fun s k v => (.ok (), listPut s k v)
    delete := fun s k => (.ok (), listDelete s k) }

/-! ## Theorems about the generator's accept/reject behaviour -/

/-- C6: for every tagged-union (enum or union) input, the generator fails —
it refuses to produce an implementation instead of emitting any layout. -/
theorem derive_rejects_sums (name : String) :
    derive { ident := name, data := DataKind.enumData }
        = .error "not yet implemented: #[derive(State)] does not yet support enums" ∧
    derive { ident := name, data := DataKind.unionData }
        = .error "Unions are not supported" :=
  ⟨rfl, rfl⟩

/-- C7 counterexample: a braced struct with zero fields is not rejected — the
generator produces an implementation (with the empty tuple `Encoding`). -/
theorem derive_accepts_empty_struct :
    derive { ident := "Empty", data := DataKind.structData (FieldsKind.named []) }
      = .ok { is_tuple_struct := false, encodingTypes := [],
              createCalls := [], flushOrder := [] } :=
  rfl

/-- C7 amended: only unit structs (`struct S;`, `syn::Fields::Unit`) are
rejected by the generator; zero-field braced and zero-field tuple structs are
accepted and an implementation is generated for them. -/
theorem derive_unit_rejected (name : String) :
    derive { ident := name, data := DataKind.structData FieldsKind.unit }
        = .error "Unit structs are not supported" ∧
    (∃ g, derive { ident := name, data := DataKind.structData (FieldsKind.named []) }
        = .ok g) ∧
    (∃ g, derive { ident := name, data := DataKind.structData (FieldsKind.unnamed []) }
        = .ok g) :=
  ⟨rfl, ⟨_, rfl⟩, ⟨_, rfl⟩⟩

/-! ## The generated `create`: per-field composition rule -/

/-- Characterization of `createFields` succeeding, with the declaration
positions shifted by `j`. -/
theorem createFields_ok_iff {Store V E ε : Type} (sub : Store → List Nat → Store)
    (store : Store) :
    ∀ (j : Nat) (pairs : List (FieldOps Store V E ε × E)) (vs : List V),
      createFields sub store j pairs = .ok vs ↔
        (vs.length = pairs.length ∧
          ∀ i, i < pairs.length →
            ∃ p v, pairs[i]? = some p ∧ vs[i]? = some v ∧
              p.1.create (sub store [j + i]) p.2 = .ok v) := by
  intro j pairs
  induction pairs generalizing j with
  | nil =>
    intro vs
    constructor
    · intro h
      simp only [createFields] at h
      cases vs with
      | nil => simp
      | cons v vs => simp at h
    · rintro ⟨hlen, -⟩
      have hnil : vs = [] := List.eq_nil_of_length_eq_zero hlen
      subst hnil
      rfl
  | cons p rest ih =>
    intro vs
    obtain ⟨f, e⟩ := p
    constructor
    · intro h
      simp only [createFields] at h
      cases hc : f.create (sub store [j]) e with
      | error err => rw [hc] at h; cases h
      | ok v =>
        rw [hc] at h
        cases hr : createFields sub store (j + 1) rest with
        | error err => rw [hr] at h; cases h
        | ok tail =>
          rw [hr] at h
          cases h
          obtain ⟨hlen, hall⟩ := (ih (j + 1) tail).mp hr
          refine ⟨by simp [hlen], ?_⟩
          intro i hi
          cases i with
          | zero =>
            exact ⟨(f, e), v, by simp, by simp, by simpa using hc⟩
          | succ i =>
            obtain ⟨q, v2, hq, hv, hcr⟩ := hall i (by simpa using hi)
            refine ⟨q, v2, by simpa using hq, by simpa using hv, ?_⟩
            have hj : j + (i + 1) = (j + 1) + i := by omega
            rw [hj]
            exact hcr
    · rintro ⟨hlen, hall⟩
      cases vs with
      | nil => simp at hlen
      | cons v vs2 =>
        obtain ⟨p0, v0, hp0, hv0, hcr0⟩ := hall 0 (by simp)
        have hp0e : p0 = (f, e) := by
          simp only [List.getElem?_cons_zero] at hp0
          exact (Option.some.inj hp0).symm
        have hv0e : v0 = v := by
          simp only [List.getElem?_cons_zero] at hv0
          exact (Option.some.inj hv0).symm
        subst hp0e
        subst hv0e
        have hr : createFields sub store (j + 1) rest = .ok vs2 := by
          refine (ih (j + 1) vs2).mpr ⟨by simpa using hlen, ?_⟩
          intro i hi
          obtain ⟨q, v2, hq, hv, hcr⟩ := hall (i + 1) (by simpa using hi)
          refine ⟨q, v2, by simpa using hq, by simpa using hv, ?_⟩
          have hj : (j + 1) + i = j + (i + 1) := by omega
          rw [hj]
          exact hcr
        have hcr1 : f.create (sub store [j]) e = Except.ok v0 := by simpa using hcr0
        simp only [createFields, hcr1, hr]
  
/-- C1: for every compound record, the generated `create` succeeds with
values `vs` exactly when, for each field `i` in declaration order, that
field's `create` applied to the sub-store `store.sub [i]` (the zero-based
declaration position as a single path segment) and the `i`-th component of
the encoding tuple returns the `i`-th component of `vs` — the record is built
from exactly those per-field results. -/
theorem compoundCreate_spec {Store V E ε : Type} (sub : Store → List Nat → Store)
    (fields : List (FieldOps Store V E ε)) (store : Store) (data : List E)
    (hlen : data.length = fields.length) (vs : List V) :
    compoundCreate sub fields store data = .ok vs ↔
      (vs.length = fields.length ∧
        ∀ i, i < fields.length →
          ∃ f d v, fields[i]? = some f ∧ data[i]? = some d ∧ vs[i]? = some v ∧
            f.create (sub store [i]) d = .ok v) := by
  unfold compoundCreate
  rw [createFields_ok_iff]
  have hzlen : (fields.zip data).length = fields.length := by
    simp [hlen]
  constructor
  · rintro ⟨h1, h2⟩
    refine ⟨by rw [h1, hzlen], ?_⟩
    intro i hi
    obtain ⟨q, v, hq, hv, hcr⟩ := h2 i (by rw [hzlen]; exact hi)
    rw [List.getElem?_zip_eq_some] at hq
    exact ⟨q.1, q.2, v, hq.1, hq.2, hv, by simpa using hcr⟩
  · rintro ⟨h1, h2⟩
    refine ⟨by rw [h1, hzlen], ?_⟩
    intro i hi
    rw [hzlen] at hi
    obtain ⟨f, d, v, hf, hd, hv, hcr⟩ := h2 i hi
    refine ⟨(f, d), v, ?_, hv, by simpa using hcr⟩
    rw [List.getElem?_zip_eq_some]
    exact ⟨hf, hd⟩

/-- Witness for `compoundCreate_spec` at a concrete one-field record. -/
theorem compoundCreate_spec_witness :
    compoundCreate unitSub [idOps] () [5] = .ok [5] ↔
      (([5] : List Nat).length = [idOps].length ∧
        ∀ i, i < [idOps].length →
          ∃ f d v, [idOps][i]? = some f ∧ ([5] : List Nat)[i]? = some d ∧
            ([5] : List Nat)[i]? = some v ∧ f.create (unitSub () [i]) d = .ok v) :=
  compoundCreate_spec unitSub [idOps] () [5] (by decide) [5]

/-! ## The generated `flush`: tuple reassembly in declaration order -/

/-- Characterization of `flushFields` succeeding. -/
theorem flushFields_ok_iff {Store V E ε : Type} :
    ∀ (pairs : List (FieldOps Store V E ε × V)) (es : List E),
      flushFields pairs = .ok es ↔
        (es.length = pairs.length ∧
          ∀ i, i < pairs.length →
            ∃ p e, pairs[i]? = some p ∧ es[i]? = some e ∧ p.1.flush p.2 = .ok e) := by
  intro pairs
  induction pairs with
  | nil =>
    intro es
    constructor
    · intro h
      simp only [flushFields] at h
      cases es with
      | nil => simp
      | cons e es => simp at h
    · rintro ⟨hlen, -⟩
      have hnil : es = [] := List.eq_nil_of_length_eq_zero hlen
      subst hnil
      rfl
  | cons p rest ih =>
    intro es
    obtain ⟨f, v⟩ := p
    constructor
    · intro h
      simp only [flushFields] at h
      cases hc : f.flush v with
      | error err => rw [hc] at h; cases h
      | ok e =>
        rw [hc] at h
        cases hr : flushFields rest with
        | error err => rw [hr] at h; cases h
        | ok tail =>
          rw [hr] at h
          cases h
          obtain ⟨hlen, hall⟩ := (ih tail).mp hr
          refine ⟨by simp [hlen], ?_⟩
          intro i hi
          cases i with
          | zero => exact ⟨(f, v), e, by simp, by simp, by simpa using hc⟩
          | succ i =>
            obtain ⟨q, e2, hq, he, hfl⟩ := hall i (by simpa using hi)
            exact ⟨q, e2, by simpa using hq, by simpa using he, hfl⟩
    · rintro ⟨hlen, hall⟩
      cases es with
      | nil => simp at hlen
      | cons e es2 =>
        obtain ⟨p0, e0, hp0, he0, hfl0⟩ := hall 0 (by simp)
        have hp0e : p0 = (f, v) := by
          simp only [List.getElem?_cons_zero] at hp0
          exact (Option.some.inj hp0).symm
        have he0e : e0 = e := by
          simp only [List.getElem?_cons_zero] at he0
          exact (Option.some.inj he0).symm
        subst hp0e
        subst he0e
        have hr : flushFields rest = .ok es2 := by
          refine (ih es2).mpr ⟨by simpa using hlen, ?_⟩
          intro i hi
          obtain ⟨q, e2, hq, he, hfl⟩ := hall (i + 1) (by simpa using hi)
          exact ⟨q, e2, by simpa using hq, by simpa using he, hfl⟩
        have hfl1 : f.flush v = Except.ok e0 := by simpa using hfl0
        simp only [flushFields, hfl1, hr]

/-- C8: the generated `flush` consumes the field values and succeeds with the
tuple `es` exactly when each field's own `flush`, applied in declaration
order, yields the matching component of `es`; moreover, whenever the
generator accepts an item, the generated `Encoding` is the ordered tuple of
the declared field types' `Encoding`s and the flush order is exactly the
declaration order `0, 1, ..., n-1`. -/
theorem compoundFlush_spec {Store V E ε : Type} (fields : List (FieldOps Store V E ε))
    (vals : List V) (hlen : vals.length = fields.length) (es : List E) :
    (compoundFlush fields vals = .ok es ↔
      (es.length = fields.length ∧
        ∀ i, i < fields.length →
          ∃ f v e, fields[i]? = some f ∧ vals[i]? = some v ∧ es[i]? = some e ∧
            f.flush v = .ok e)) ∧
    (∀ (item : DeriveInput) (g : GeneratedImpl), derive item = .ok g →
      ∃ fs, struct_fields item = .ok fs ∧
        g.encodingTypes = fs.map (fun fd => fd.ty) ∧
        g.flushOrder = List.range fs.length) := by
  constructor
  · unfold compoundFlush
    rw [flushFields_ok_iff]
    have hzlen : (fields.zip vals).length = fields.length := by
      simp [hlen]
    constructor
    · rintro ⟨h1, h2⟩
      refine ⟨by rw [h1, hzlen], ?_⟩
      intro i hi
      obtain ⟨q, e, hq, he, hfl⟩ := h2 i (by rw [hzlen]; exact hi)
      rw [List.getElem?_zip_eq_some] at hq
      exact ⟨q.1, q.2, e, hq.1, hq.2, he, hfl⟩
    · rintro ⟨h1, h2⟩
      refine ⟨by rw [h1, hzlen], ?_⟩
      intro i hi
      rw [hzlen] at hi
      obtain ⟨f, v, e, hf, hv, he, hfl⟩ := h2 i hi
      refine ⟨(f, v), e, ?_, he, hfl⟩
      rw [List.getElem?_zip_eq_some]
      exact ⟨hf, hv⟩
  · intro item g hg
    unfold derive at hg
    cases hs : struct_fields item with
    | error e => rw [hs] at hg; cases hg
    | ok fs =>
      rw [hs] at hg
      refine ⟨fs, rfl, ?_, ?_⟩
      · cases hg
        rfl
      · cases hg
        rfl

/-- Witness for `compoundFlush_spec` at a concrete two-field record. -/
theorem compoundFlush_spec_witness :
    (compoundFlush [idOps, idOps] [4, 7] = .ok [4, 7] ↔
      (([4, 7] : List Nat).length = [idOps, idOps].length ∧
        ∀ i, i < [idOps, idOps].length →
          ∃ f v e, [idOps, idOps][i]? = some f ∧ ([4, 7] : List Nat)[i]? = some v ∧
            ([4, 7] : List Nat)[i]? = some e ∧ f.flush v = .ok e)) ∧
    (∀ (item : DeriveInput) (g : GeneratedImpl), derive item = .ok g →
      ∃ fs, struct_fields item = .ok fs ∧
        g.encodingTypes = fs.map (fun fd => fd.ty) ∧
        g.flushOrder = List.range fs.length) :=
  compoundFlush_spec [idOps, idOps] [4, 7] (by decide) [4, 7]

/-! ## Round-trip of the generated implementation -/

/-- Round-trip auxiliary, generalized over the starting declaration
position `j`. -/
theorem roundtrip_aux {Store V E ε : Type} (sub : Store → List Nat → Store)
    (store : Store) :
    ∀ (j : Nat) (fields : List (FieldOps Store V E ε)) (vals : List V),
      vals.length = fields.length →
      (∀ fo, fo ∈ fields → ∀ (s : Store) (v : V),
        ∃ e, fo.flush v = .ok e ∧ fo.create s e = .ok v) →
      ∃ es, flushFields (fields.zip vals) = .ok es ∧ es.length = fields.length ∧
        createFields sub store j (fields.zip es) = .ok vals := by
  intro j fields
  induction fields generalizing j with
  | nil =>
    intro vals hlen _
    have hnil : vals = [] := List.eq_nil_of_length_eq_zero hlen
    subst hnil
    exact ⟨[], rfl, rfl, rfl⟩
  | cons fo fs ih =>
    intro vals hlen hf
    cases vals with
    | nil => simp at hlen
    | cons v vs =>
      obtain ⟨e, hfl, hcr⟩ := hf fo (List.mem_cons_self fo fs) (sub store [j]) v
      obtain ⟨es, h1, h2, h3⟩ := ih (j + 1) vs (by simpa using hlen)
        (fun g hg s x => hf g (List.mem_cons_of_mem fo hg) s x)
      refine ⟨e :: es, ?_, by simp [h2], ?_⟩
      · have h1b : flushFields (List.zipWith Prod.mk fs vs) = Except.ok es := h1
        simp only [List.zip_cons_cons, flushFields, hfl, h1b]
      · have h3b : createFields sub store (j + 1) (List.zipWith Prod.mk fs es)
            = Except.ok vs := h3
        simp only [List.zip_cons_cons, createFields, hcr, h3b]

/-- C2: if every field's `State` implementation round-trips
(`create s (flush x) = x` for every store `s`), then the generated compound
implementation round-trips: for any store — empty or pre-populated —
`flush v` succeeds and `create store (flush v)` rebuilds `v`
field-for-field. -/
theorem compound_roundtrip {Store V E ε : Type} (sub : Store → List Nat → Store)
    (fields : List (FieldOps Store V E ε)) (store : Store) (vals : List V)
    (hlen : vals.length = fields.length)
    (hf : ∀ fo, fo ∈ fields → ∀ (s : Store) (v : V),
      ∃ e, fo.flush v = .ok e ∧ fo.create s e = .ok v) :
    ∃ es, compoundFlush fields vals = .ok es ∧
      compoundCreate sub fields store es = .ok vals := by
  obtain ⟨es, h1, -, h3⟩ := roundtrip_aux sub store 0 fields vals hlen hf
  exact ⟨es, h1, h3⟩

/-- Witness for `compound_roundtrip` at a concrete two-field record. -/
theorem compound_roundtrip_witness :
    ∃ es, compoundFlush [idOps, idOps] [4, 7] = .ok es ∧
      compoundCreate unitSub [idOps, idOps] () es = .ok [4, 7] :=
  compound_roundtrip unitSub [idOps, idOps] () [4, 7] (by decide)
    (by
      intro fo hfo s v
      have hfe : fo = idOps := by
        rcases List.mem_cons.mp hfo with h | h
        · exact h
        · simpa using h
      subst hfe
      exact ⟨v, rfl, rfl⟩)

/-! ## Error propagation through the generated implementation -/

/-- If the fields before position `pre.length` all create successfully and
the next field's `create` fails with `err`, then `createFields` returns
exactly `err`, whatever fields follow. -/
theorem createFields_append_error {Store V E ε : Type} (sub : Store → List Nat → Store)
    (store : Store) (f : FieldOps Store V E ε) (e : E) (err : ε) :
    ∀ (j : Nat) (pre : List (FieldOps Store V E ε × E)),
      (∀ i, i < pre.length →
        ∃ p v, pre[i]? = some p ∧ p.1.create (sub store [j + i]) p.2 = .ok v) →
      f.create (sub store [j + pre.length]) e = .error err →
      ∀ rest, createFields sub store j (pre ++ (f, e) :: rest) = .error err := by
  intro j pre
  induction pre generalizing j with
  | nil =>
    intro _ hfail rest
    have hfail2 : f.create (sub store [j]) e = .error err := by simpa using hfail
    simp only [List.nil_append, createFields, hfail2]
  | cons q pre2 ih =>
    intro hpre hfail rest
    obtain ⟨g, d⟩ := q
    obtain ⟨p0, v0, hp0, hcr0⟩ := hpre 0 (by simp)
    have hp0e : p0 = (g, d) := by
      simp only [List.getElem?_cons_zero] at hp0
      exact (Option.some.inj hp0).symm
    subst hp0e
    have hcr1 : g.create (sub store [j]) d = Except.ok v0 := by simpa using hcr0
    have hrec : createFields sub store (j + 1) (pre2 ++ (f, e) :: rest) = .error err := by
      refine ih (j + 1) ?_ ?_ rest
      · intro i hi
        obtain ⟨p, v, hp, hcr⟩ := hpre (i + 1) (by simpa using hi)
        refine ⟨p, v, by simpa using hp, ?_⟩
        have hshift : (j + 1) + i = j + (i + 1) := by omega
        rw [hshift]
        exact hcr
      · have hshift : (j + 1) + pre2.length = j + (pre2.length + 1) := by omega
        rw [hshift]
        simpa using hfail
    have hrec2 : createFields sub store (j + 1) (pre2.append ((f, e) :: rest))
        = Except.error err := hrec
    simp only [List.cons_append, createFields, hcr1, hrec2]

/-- If the fields before position `pre.length` all flush successfully and the
next field's `flush` fails with `err`, then `flushFields` returns exactly
`err`, whatever fields follow. -/
theorem flushFields_append_error {Store V E ε : Type} (f : FieldOps Store V E ε)
    (v : V) (err : ε) :
    ∀ (pre : List (FieldOps Store V E ε × V)),
      (∀ i, i < pre.length →
        ∃ p enc, pre[i]? = some p ∧ p.1.flush p.2 = .ok enc) →
      f.flush v = .error err →
      ∀ rest, flushFields (pre ++ (f, v) :: rest) = .error err := by
  intro pre
  induction pre with
  | nil =>
    intro _ hfail rest
    simp only [List.nil_append, flushFields, hfail]
  | cons q pre2 ih =>
    intro hpre hfail rest
    obtain ⟨g, x⟩ := q
    obtain ⟨p0, e0, hp0, hfl0⟩ := hpre 0 (by simp)
    have hp0e : p0 = (g, x) := by
      simp only [List.getElem?_cons_zero] at hp0
      exact (Option.some.inj hp0).symm
    subst hp0e
    have hfl1 : g.flush x = Except.ok e0 := by simpa using hfl0
    have hrec : flushFields (pre2 ++ (f, v) :: rest) = .error err := by
      refine ih ?_ hfail rest
      intro i hi
      obtain ⟨p, enc, hp, hfl⟩ := hpre (i + 1) (by simpa using hi)
      exact ⟨p, enc, by simpa using hp, hfl⟩
    have hrec2 : flushFields (pre2.append ((f, v) :: rest)) = Except.error err := hrec
    simp only [List.cons_append, flushFields, hfl1, hrec2]

/-- C4 amended: if every field before position `preF.length` succeeds and the
field at that position fails with `err`, the generated compound `create`
(resp. `flush`) returns exactly `err` — the operation aborts at once, no
partially constructed compound value is returned, fields after the failing
one are never processed (the result is the same for every choice of later
fields), and the surfaced error is the field's own error, propagated
unmodified. -/
theorem compound_abort_on_error {Store V E ε : Type} (sub : Store → List Nat → Store)
    (store : Store) (preF : List (FieldOps Store V E ε)) (err : ε) :
    (∀ (preD : List E) (f : FieldOps Store V E ε) (e : E)
        (postF : List (FieldOps Store V E ε)) (postD : List E),
      preD.length = preF.length →
      (∀ i, i < preF.length → ∃ g d v, preF[i]? = some g ∧ preD[i]? = some d ∧
        g.create (sub store [i]) d = .ok v) →
      f.create (sub store [preF.length]) e = .error err →
      compoundCreate sub (preF ++ f :: postF) store (preD ++ e :: postD) = .error err) ∧
    (∀ (preV : List V) (f : FieldOps Store V E ε) (v : V)
        (postF : List (FieldOps Store V E ε)) (postV : List V),
      preV.length = preF.length →
      (∀ i, i < preF.length → ∃ g x enc, preF[i]? = some g ∧ preV[i]? = some x ∧
        g.flush x = .ok enc) →
      f.flush v = .error err →
      compoundFlush (preF ++ f :: postF) (preV ++ v :: postV) = .error err) := by
  constructor
  · intro preD f e postF postD hlen hpre hfail
    unfold compoundCreate
    rw [List.zip_append hlen.symm, List.zip_cons_cons]
    refine createFields_append_error sub store f e err 0 (preF.zip preD) ?_ ?_
      (postF.zip postD)
    · intro i hi
      have hi2 : i < preF.length := by
        simpa [hlen] using hi
      obtain ⟨g, d, v, hg, hd, hcr⟩ := hpre i hi2
      refine ⟨(g, d), v, ?_, by simpa using hcr⟩
      exact List.getElem?_zip_eq_some.mpr ⟨hg, hd⟩
    · simpa [hlen] using hfail
  · intro preV f v postF postV hlen hpre hfail
    unfold compoundFlush
    rw [List.zip_append hlen.symm, List.zip_cons_cons]
    refine flushFields_append_error f v err (preF.zip preV) ?_ hfail
      (postF.zip postV)
    intro i hi
    have hi2 : i < preF.length := by
      simpa [hlen] using hi
    obtain ⟨g, x, enc, hg, hx, hfl⟩ := hpre i hi2
    refine ⟨(g, x), enc, ?_, by simpa using hfl⟩
    exact List.getElem?_zip_eq_some.mpr ⟨hg, hx⟩

/-- Witness for `compound_abort_on_error` on a concrete three-field record
whose middle field fails. -/
theorem compound_abort_witness :
    compoundCreate unitSub [idOps, failCreateOps, idOps] () [1, 2, 3] = .error "boom" ∧
    compoundFlush [idOps, failFlushOps, idOps] [1, 2, 3] = .error "boom" := by
  constructor
  · exact (compound_abort_on_error unitSub () [idOps] "boom").1 [1] failCreateOps 2
      [idOps] [3] rfl
      (by
        intro i hi
        simp only [List.length_cons, List.length_nil] at hi
        have h0 : i = 0 := by omega
        subst h0
        exact ⟨idOps, 1, 1, rfl, rfl, rfl⟩)
      rfl
  · exact (compound_abort_on_error unitSub () [idOps] "boom").2 [1] failFlushOps 2
      [idOps] [3] rfl
      (by
        intro i hi
        simp only [List.length_cons, List.length_nil] at hi
        have h0 : i = 0 := by omega
        subst h0
        exact ⟨idOps, 1, 1, rfl, rfl, rfl⟩)
      rfl

/-- C4 counterexample to the tagging part of the claim: a compound whose
first field fails and a compound whose second field fails surface the
identical error value `"boom"` — the error reaching the caller is the field's
own error, with no added context identifying which field failed. -/
theorem compound_error_untagged :
    compoundCreate unitSub [failCreateOps, idOps] () [1, 2] = .error "boom" ∧
    compoundCreate unitSub [idOps, failCreateOps] () [1, 2] = .error "boom" ∧
    compoundFlush [failFlushOps, idOps] [1, 2] = .error "boom" ∧
    compoundFlush [idOps, failFlushOps] [1, 2] = .error "boom" :=
  ⟨rfl, rfl, rfl, rfl⟩

/-! ## Theorems about the `Shared` wrapper -/

/-- Writing back the entry a list already holds leaves the list unchanged. -/
theorem list_set_self {α : Type} (l : List α) :
    ∀ (n : Nat) (a : α), l[n]? = some a → l.set n a = l := by
  induction l with
  | nil =>
    intro n a h
    simp at h
  | cons x xs ih =>
    intro n a h
    cases n with
    | zero =>
      simp only [List.getElem?_cons_zero] at h
      have hxa : x = a := Option.some.inj h
      subst hxa
      rfl
    | succ n =>
      simp only [List.getElem?_cons_succ] at h
      simp [ih n a h]

/-- C9: `Shared` is transparent. On a handle whose cell is not being borrowed
(no operation in flight), `get`, `put` and `delete` return exactly the result
of the same operation applied directly to the wrapped inner store, and leave
the inner store in exactly the state the direct operation leaves it in; the
borrow taken for the call is released on return. -/
theorem shared_transparent {σ ε : Type} (ops : StoreOps σ ε) (w : World σ)
    (hdl : Nat) (s : σ) (k v : List Nat)
    (hcell : w[hdl]? = some (s, BorrowFlag.reading 0)) :
    Shared.get ops w hdl k = some (ops.get s k, w) ∧
    Shared.put ops w hdl k v
      = some ((ops.put s k v).1, w.set hdl ((ops.put s k v).2, BorrowFlag.reading 0)) ∧
    Shared.delete ops w hdl k
      = some ((ops.delete s k).1, w.set hdl ((ops.delete s k).2, BorrowFlag.reading 0)) := by
  refine ⟨?_, ?_, ?_⟩
  · simp only [Shared.get, hcell, tryBorrow]
    rw [list_set_self w hdl (s, BorrowFlag.reading 0) hcell]
  · simp only [Shared.put, hcell, tryBorrowMut]
  · simp only [Shared.delete, hcell, tryBorrowMut]

/-- Witness for `shared_transparent` on a concrete in-memory store. -/
theorem shared_transparent_witness :
    Shared.get listStore [([([0], [7])], BorrowFlag.reading 0)] 0 [0]
      = some (listStore.get [([0], [7])] [0], [([([0], [7])], BorrowFlag.reading 0)]) ∧
    Shared.put listStore [([([0], [7])], BorrowFlag.reading 0)] 0 [0] [1]
      = some ((listStore.put [([0], [7])] [0] [1]).1,
          List.set [([([0], [7])], BorrowFlag.reading 0)] 0
            ((listStore.put [([0], [7])] [0] [1]).2, BorrowFlag.reading 0)) ∧
    Shared.delete listStore [([([0], [7])], BorrowFlag.reading 0)] 0 [0]
      = some ((listStore.delete [([0], [7])] [0]).1,
          List.set [([([0], [7])], BorrowFlag.reading 0)] 0
            ((listStore.delete [([0], [7])] [0]).2, BorrowFlag.reading 0)) :=
  shared_transparent listStore [([([0], [7])], BorrowFlag.reading 0)] 0
    [([0], [7])] [0] [1] rfl

/-- C5: all clones of a `Shared` handle are the very same handle (`Rc::clone`
copies the pointer, no store data is copied), so a `put` performed through
one clone is immediately visible to a `get` of the same key through any other
clone: the `get` returns the value just written, and both calls acquire and
release their borrow within the call. -/
theorem shared_clone_visibility {σ ε : Type} (ops : StoreOps σ ε) (w : World σ)
    (hdl : Nat) (s s2 : σ) (k v : List Nat)
    (hcell : w[hdl]? = some (s, BorrowFlag.reading 0))
    (hput : ops.put s k v = (.ok (), s2))
    (hget : ops.get s2 k = .ok (some v)) :
    Shared.clone (Shared.clone hdl) = hdl ∧
    Shared.put ops w (Shared.clone hdl) k v
      = some (.ok (), w.set hdl (s2, BorrowFlag.reading 0)) ∧
    Shared.get ops (w.set hdl (s2, BorrowFlag.reading 0)) (Shared.clone (Shared.clone hdl)) k
      = some (.ok (some v), w.set hdl (s2, BorrowFlag.reading 0)) := by
  have hlt : hdl < w.length := by
    obtain ⟨h, -⟩ := List.getElem?_eq_some_iff.mp hcell
    exact h
  have hset : (w.set hdl (s2, BorrowFlag.reading 0))[hdl]?
      = some (s2, BorrowFlag.reading 0) := by
    rw [List.getElem?_set_self]
    simpa using hlt
  refine ⟨rfl, ?_, ?_⟩
  · simp only [Shared.clone, Shared.put, hcell, tryBorrowMut, hput]
  · simp only [Shared.clone, Shared.get, hset, tryBorrow, hget]
    rw [list_set_self _ hdl (s2, BorrowFlag.reading 0) hset]

/-- Witness for `shared_clone_visibility` on a concrete in-memory store. -/
theorem shared_clone_visibility_witness :
    Shared.clone (Shared.clone 0) = 0 ∧
    Shared.put listStore [([], BorrowFlag.reading 0)] (Shared.clone 0) [5] [6]
      = some (.ok (), List.set [([], BorrowFlag.reading 0)] 0
          ([([5], [6])], BorrowFlag.reading 0)) ∧
    Shared.get listStore
        (List.set [([], BorrowFlag.reading 0)] 0 ([([5], [6])], BorrowFlag.reading 0))
        (Shared.clone (Shared.clone 0)) [5]
      = some (.ok (some [6]), List.set [([], BorrowFlag.reading 0)] 0
          ([([5], [6])], BorrowFlag.reading 0)) :=
  shared_clone_visibility listStore [([], BorrowFlag.reading 0)] 0 [] [([5], [6])]
    [5] [6] rfl rfl rfl

/-- C3 counterexample: an in-flight `get` on a free cell holds the shared
borrow flag `reading 1`; with its cell in that mid-call state, a nested `get`
on the same handle does not fail — it returns a result (`some ...`), not the
panic modelled by `none`. -/
theorem shared_nested_get_allowed :
    tryBorrow (BorrowFlag.reading 0) = some (BorrowFlag.reading 1) ∧
    Shared.get listStore [([([0], [9])], BorrowFlag.reading 1)] 0 [0]
      = some (.ok (some [9]), [([([0], [9])], BorrowFlag.reading 1)]) :=
  ⟨rfl, rfl⟩

/-- C3 amended: each `get`/`put`/`delete` call borrows the underlying store
only for that single call and releases it on return; a nested `put` or
`delete` through the handle or any clone of it while any call is in flight
panics, and any nested call while a `put`/`delete` is in flight panics — but
a nested `get` inside an in-flight `get` is permitted (shared borrows may
overlap) and leaves the world unchanged on return. -/
theorem shared_exclusive_per_call {σ ε : Type} (ops : StoreOps σ ε) (w : World σ)
    (hdl : Nat) (s : σ) (m : Nat) (k k2 v : List Nat)
    (hcell : w[hdl]? = some (s, BorrowFlag.reading (m + 1))) :
    Shared.put ops w (Shared.clone hdl) k v = none ∧
    Shared.delete ops w (Shared.clone hdl) k = none ∧
    Shared.get ops w (Shared.clone hdl) k2 = some (ops.get s k2, w) ∧
    (∀ (w2 : World σ) (s2 : σ), w2[hdl]? = some (s2, BorrowFlag.writing) →
      Shared.get ops w2 hdl k2 = none ∧
      Shared.put ops w2 hdl k v = none ∧
      Shared.delete ops w2 hdl k = none) := by
  refine ⟨?_, ?_, ?_, ?_⟩
  · simp only [Shared.clone, Shared.put, hcell, tryBorrowMut]
  · simp only [Shared.clone, Shared.delete, hcell, tryBorrowMut]
  · simp only [Shared.clone, Shared.get, hcell, tryBorrow]
    rw [list_set_self w hdl (s, BorrowFlag.reading (m + 1)) hcell]
  · intro w2 s2 hcell2
    refine ⟨?_, ?_, ?_⟩
    · simp only [Shared.get, hcell2, tryBorrow]
    · simp only [Shared.put, hcell2, tryBorrowMut]
    · simp only [Shared.delete, hcell2, tryBorrowMut]

/-- Witness for `shared_exclusive_per_call` on a concrete in-memory store. -/
theorem shared_exclusive_per_call_witness :
    Shared.put listStore [([], BorrowFlag.reading 1)] (Shared.clone 0) [1] [2] = none ∧
    Shared.delete listStore [([], BorrowFlag.reading 1)] (Shared.clone 0) [1] = none ∧
    Shared.get listStore [([], BorrowFlag.reading 1)] (Shared.clone 0) [3]
      = some (listStore.get [] [3], [([], BorrowFlag.reading 1)]) ∧
    (∀ (w2 : World (List (List Nat × List Nat))) (s2 : List (List Nat × List Nat)),
      w2[0]? = some (s2, BorrowFlag.writing) →
      Shared.get listStore w2 0 [3] = none ∧
      Shared.put listStore w2 0 [1] [2] = none ∧
      Shared.delete listStore w2 0 [1] = none) :=
  shared_exclusive_per_call listStore [([], BorrowFlag.reading 1)] 0 [] 0 [1] [3] [2] rfl

/-- C10: while a `get` is in flight on a `Shared` handle (the cell holds at
least one shared borrow), another `get` through the same handle or any clone
succeeds — only an overlap in which the nested operation is a `put` or a
`delete` panics. -/
theorem shared_overlapping_reads {σ ε : Type} (ops : StoreOps σ ε) (w : World σ)
    (hdl : Nat) (s : σ) (m : Nat) (k k2 v : List Nat)
    (hcell : w[hdl]? = some (s, BorrowFlag.reading (m + 1))) :
    (∃ r w2, Shared.get ops w (Shared.clone hdl) k2 = some (r, w2)) ∧
    Shared.put ops w hdl k v = none ∧
    Shared.delete ops w hdl k = none := by
  refine ⟨⟨ops.get s k2, w.set hdl (s, BorrowFlag.reading (m + 1)), ?_⟩, ?_, ?_⟩
  · simp only [Shared.clone, Shared.get, hcell, tryBorrow]
  · simp only [Shared.put, hcell, tryBorrowMut]
  · simp only [Shared.delete, hcell, tryBorrowMut]

/-- Witness for `shared_overlapping_reads` on a concrete in-memory store. -/
theorem shared_overlapping_reads_witness :
    (∃ r w2, Shared.get listStore [([([4], [5])], BorrowFlag.reading 1)]
        (Shared.clone 0) [4] = some (r, w2)) ∧
    Shared.put listStore [([([4], [5])], BorrowFlag.reading 1)] 0 [4] [6] = none ∧
    Shared.delete listStore [([([4], [5])], BorrowFlag.reading 1)] 0 [4] = none :=
  shared_overlapping_reads listStore [([([4], [5])], BorrowFlag.reading 1)] 0
    [([4], [5])] 0 [4] [4] [6] rfl
